import Mathlib

/-!
Shallow embedding of the metric-engineering pipeline of `Day4/ken_dashboard.py`
(the "30 Days of Streamlit" video-analytics dashboard), together with proofs
about the pipeline operations `engineer_df_agg`, `engineer_df_time`,
`get_vid_stat_trends` and `get_header_stats`.

Numeric cells of the pandas dataframes are modelled by `PVal`: an exact
rational together with the IEEE special values NaN / +inf / -inf that numpy
float64 arithmetic produces on the degenerate divisions the pipeline performs.
Timestamps (pandas `datetime64[ns]` at midnight, which is all the pipeline
ever builds) are modelled by a year/month/day `Date`.
-/

namespace KenDash

/-- A numpy float64 cell value: an exact rational, or one of the non-finite
IEEE sentinels NaN, +inf, -inf.  The pipeline only ever produces float values
that are exactly representable (small integers, sums, and the results of the
divisions we model symbolically), so rationals are a faithful carrier. -/
inductive PVal where
  | num (q : ℚ)
  | nan
  | inf
  | ninf
deriving DecidableEq, Repr

/-- IEEE addition on `PVal` (numpy float64 semantics). -/
def PVal.add : PVal → PVal → PVal
  | .num a, .num b => .num (a + b)
  | .num _, .inf => .inf
  | .num _, .ninf => .ninf
  | .inf, .num _ => .inf
  | .ninf, .num _ => .ninf
  | .inf, .inf => .inf
  | .ninf, .ninf => .ninf
  | .inf, .ninf => .nan
  | .ninf, .inf => .nan
  | .nan, _ => .nan
  | _, .nan => .nan

/-- IEEE subtraction on `PVal` (numpy float64 semantics). -/
def PVal.sub : PVal → PVal → PVal
  | .num a, .num b => .num (a - b)
  | .num _, .inf => .ninf
  | .num _, .ninf => .inf
  | .inf, .num _ => .inf
  | .ninf, .num _ => .ninf
  | .inf, .ninf => .inf
  | .ninf, .inf => .ninf
  | .inf, .inf => .nan
  | .ninf, .ninf => .nan
  | .nan, _ => .nan
  | _, .nan => .nan

/-- IEEE division on `PVal`: division by zero yields the non-finite
sentinels exactly as numpy does (`1/0 = inf`, `-1/0 = -inf`, `0/0 = nan`). -/
def PVal.div : PVal → PVal → PVal
  | .num a, .num b =>
      if b = 0 then
        if a = 0 then .nan else if 0 < a then .inf else .ninf
      else .num (a / b)
  | .num _, .inf => .num 0
  | .num _, .ninf => .num 0
  | .inf, .num b => if 0 ≤ b then .inf else .ninf
  | .ninf, .num b => if 0 ≤ b then .ninf else .inf
  | .inf, .inf => .nan
  | .inf, .ninf => .nan
  | .ninf, .inf => .nan
  | .ninf, .ninf => .nan
  | .nan, _ => .nan
  | _, .nan => .nan

/-- Halving, used by the even-length median (numpy computes the mean of the
two middle elements). -/
def PVal.half : PVal → PVal
  | .num a => .num (a / 2)
  | .nan => .nan
  | .inf => .inf
  | .ninf => .ninf

/-- Is this value NaN?  (pandas `median` skips NaN cells: `skipna=True`.) -/
def PVal.isNan : PVal → Bool
  | .nan => true
  | _ => false

/-- Is this value finite (an actual number, not NaN/±inf)? -/
def PVal.isFinite : PVal → Bool
  | .num _ => true
  | _ => false

/-- Total comparison used when sorting values for the median; NaN sorts last
(matching numpy), though median filters NaN out beforehand anyway. -/
def PVal.leB : PVal → PVal → Bool
  | .nan, .nan => true
  | .nan, _ => false
  | _, .nan => true
  | .ninf, _ => true
  | _, .ninf => false
  | _, .inf => true
  | .inf, _ => false
  | .num a, .num b => a ≤ b

/-- Insert into an ascending list (used only to realise the sorted order a
median needs; the sorted multiset is unique, so any correct sort matches
numpy's partition-based median). -/
def insPVal (x : PVal) : List PVal → List PVal
  | [] => [x]
  | y :: ys => if PVal.leB x y then x :: y :: ys else y :: insPVal x ys

/-- Ascending sort of the values of a column. -/
def sortPVal (l : List PVal) : List PVal := l.foldr insPVal []

/-- `pandas.Series.median` (default `skipna=True`): drop NaN, then the middle
element of the sorted values, or the mean of the two middle elements; the
median of an empty (or all-NaN) column is NaN — pandas raises no error. -/
def medianPVal (l : List PVal) : PVal :=
  let xs := sortPVal (l.filter (fun v => ¬ v.isNan))
  let n := xs.length
  if n = 0 then .nan
  else if n % 2 = 1 then xs.getD (n / 2) .nan
  else PVal.half (PVal.add (xs.getD (n / 2 - 1) .nan) (xs.getD (n / 2) .nan))

/-- A calendar date, modelling a pandas `Timestamp` at midnight (the only
timestamps the pipeline builds: `%b %d, %Y` and `%d %b %Y` parses). -/
structure Date where
  year : Int
  month : Nat
  day : Nat
deriving DecidableEq, Repr

instance : Inhabited Date := ⟨⟨1970, 1, 1⟩⟩

/-- Strict chronological comparison (pandas `Timestamp` `<`). -/
def Date.lt (a b : Date) : Bool :=
  if a.year ≠ b.year then decide (a.year < b.year)
  else if a.month ≠ b.month then decide (a.month < b.month)
  else decide (a.day < b.day)

/-- Chronological comparison (pandas `Timestamp` `<=`, used by the `>=`
window filters with arguments flipped). -/
def Date.le (a b : Date) : Bool :=
  if a.year ≠ b.year then decide (a.year < b.year)
  else if a.month ≠ b.month then decide (a.month < b.month)
  else decide (a.day ≤ b.day)

/-- Days in a calendar month, Gregorian rules (mirrors what
`datetime`/`pandas` accept when constructing a date). -/
def daysInMonth (y : Int) (m : Nat) : Nat :=
  if m = 2 then (if y % 4 = 0 ∧ (y % 100 ≠ 0 ∨ y % 400 = 0) then 29 else 28)
  else if m = 4 ∨ m = 6 ∨ m = 9 ∨ m = 11 then 30 else 31

/-- Is this a date `datetime`/`pandas` can represent? -/
def Date.valid (d : Date) : Bool :=
  decide (1 ≤ d.month) ∧ decide (d.month ≤ 12) ∧ decide (1 ≤ d.day) ∧
    decide (d.day ≤ daysInMonth d.year d.month) ∧
    decide (1 ≤ d.year) ∧ decide (d.year ≤ 9999)

/-- `timestamp - pd.DateOffset(months=12)`: same month one year earlier,
with the day clamped into the target month. -/
def Date.subMonths12 (d : Date) : Date :=
  ⟨d.year - 1, d.month, min d.day (daysInMonth (d.year - 1) d.month)⟩

/-- `timestamp - pd.DateOffset(months=6)`: six months earlier, day clamped
into the target month. -/
def Date.subMonths6 (d : Date) : Date :=
  if 6 < d.month then
    ⟨d.year, d.month - 6, min d.day (daysInMonth d.year (d.month - 6))⟩
  else
    ⟨d.year - 1, d.month + 6, min d.day (daysInMonth (d.year - 1) (d.month + 6))⟩

/-! ## Character-level models of the CPython `strptime` patterns the pipeline
uses.  `strptime` compiles a format to a regex: `%H`/`%M`/`%S`/`%d` match one
or two digits greedily with a range check, `%Y` matches exactly four digits,
`%b` matches a month abbreviation case-insensitively, and a literal space
matches one or more whitespace characters.  The `datetime` constructor then
validates calendar ranges.  -/

/-- Decimal digit test. -/
def isDigit (c : Char) : Bool := decide ('0' ≤ c) ∧ decide (c ≤ '9')

/-- Value of a decimal digit. -/
def digitVal (c : Char) : Nat := c.toNat - '0'.toNat

/-- Greedily take one or two leading digits (the `\d\d|\d` of `%H`, `%M`,
`%S`, `%d`). -/
def takeDigits2 : List Char → Option (Nat × List Char)
  | [] => none
  | [c1] => if isDigit c1 then some (digitVal c1, []) else none
  | c1 :: c2 :: rest =>
      if isDigit c1 then
        if isDigit c2 then some (digitVal c1 * 10 + digitVal c2, rest)
        else some (digitVal c1, c2 :: rest)
      else none

/-- Exactly four digits (the `\d\d\d\d` of `%Y`). -/
def takeDigits4 : List Char → Option (Nat × List Char)
  | c1 :: c2 :: c3 :: c4 :: rest =>
      if isDigit c1 ∧ isDigit c2 ∧ isDigit c3 ∧ isDigit c4 then
        some (((digitVal c1 * 10 + digitVal c2) * 10 + digitVal c3) * 10
                + digitVal c4, rest)
      else none
  | _ => none

/-- Whitespace, as `\s` sees it. -/
def isSpace (c : Char) : Bool := c = ' ' ∨ c = '\t' ∨ c = '\n' ∨ c = '\r'

/-- One or more whitespace characters (a literal blank in a `strptime`
format matches `\s+`). -/
def dropSpaces1 : List Char → Option (List Char)
  | c :: rest => if isSpace c then some (rest.dropWhile isSpace) else none
  | [] => none

/-- ASCII lower-casing (the `%b` regex is compiled with `IGNORECASE`). -/
def lowerChar (c : Char) : Char :=
  if decide ('A' ≤ c) ∧ decide (c ≤ 'Z') then Char.ofNat (c.toNat + 32) else c

/-- C-locale month abbreviation to month number. -/
def monthOfAbbrev (s : String) : Option Nat :=
  if s = "jan" then some 1 else if s = "feb" then some 2
  else if s = "mar" then some 3 else if s = "apr" then some 4
  else if s = "may" then some 5 else if s = "jun" then some 6
  else if s = "jul" then some 7 else if s = "aug" then some 8
  else if s = "sep" then some 9 else if s = "oct" then some 10
  else if s = "nov" then some 11 else if s = "dec" then some 12
  else none

/-- `%b`: a three-letter month abbreviation, case-insensitive. -/
def takeMonth : List Char → Option (Nat × List Char)
  | c1 :: c2 :: c3 :: rest =>
      match monthOfAbbrev (String.mk [lowerChar c1, lowerChar c2, lowerChar c3]) with
      | some m => some (m, rest)
      | none => none
  | _ => none

/-- `datetime.strptime(x, "%H:%M:%S")` (`ken_dashboard.py:122`): hour,
minute, second with their `strptime`/`datetime` range checks; the whole
string must be consumed. -/
def parseHMS (s : String) : Option (Nat × Nat × Nat) :=
  match takeDigits2 s.data with
  | none => none
  | some (h, r1) =>
    match r1 with
    | ':' :: r2 =>
      match takeDigits2 r2 with
      | none => none
      | some (m, r3) =>
        match r3 with
        | ':' :: r4 =>
          match takeDigits2 r4 with
          | none => none
          | some (sec, r5) =>
              if r5 = [] ∧ h ≤ 23 ∧ m ≤ 59 ∧ sec ≤ 59 then some (h, m, sec)
              else none
        | _ => none
    | _ => none

/-- `pd.to_datetime(col, format="%b %d, %Y")` on one cell
(`ken_dashboard.py:116-118`), e.g. `"Jan 05, 2024"`; `errors` defaults to
`'raise'`, so a non-matching string raises (modelled as `none`). -/
def parseMbDY (s : String) : Option Date :=
  match takeMonth s.data with
  | none => none
  | some (mo, r1) =>
    match dropSpaces1 r1 with
    | none => none
    | some r2 =>
      match takeDigits2 r2 with
      | none => none
      | some (d, r3) =>
        match r3 with
        | ',' :: r4 =>
          match dropSpaces1 r4 with
          | none => none
          | some r5 =>
            match takeDigits4 r5 with
            | none => none
            | some (y, r6) =>
                let dt : Date := ⟨(y : Int), mo, d⟩
                if r6 = [] ∧ dt.valid then some dt else none
        | _ => none

/-- `pd.to_datetime(col, format="%d %b %Y")` on one cell
(`ken_dashboard.py:159`), e.g. `"05 Jan 2024"`. -/
def parseDMY (s : String) : Option Date :=
  match takeDigits2 s.data with
  | none => none
  | some (d, r1) =>
    match dropSpaces1 r1 with
    | none => none
    | some r2 =>
      match takeMonth r2 with
      | none => none
      | some (mo, r3) =>
        match dropSpaces1 r3 with
        | none => none
        | some r4 =>
          match takeDigits4 r4 with
          | none => none
          | some (y, r5) =>
              let dt : Date := ⟨(y : Int), mo, d⟩
              if r5 = [] ∧ dt.valid then some dt else none

/-- `x.replace("Sept", "Sep")` (`ken_dashboard.py:158`): Python
`str.replace` rewrites every non-overlapping occurrence left to right. -/
def replaceSeptAux : List Char → List Char
  | 'S' :: 'e' :: 'p' :: 't' :: rest => 'S' :: 'e' :: 'p' :: replaceSeptAux rest
  | c :: rest => c :: replaceSeptAux rest
  | [] => []

/-- Normalisation of the nonstandard month abbreviation before parsing. -/
def normalizeSept (s : String) : String := String.mk (replaceSeptAux s.data)

/-! ## The aggregate table -/

/-- A raw row of `Aggregated_Metrics_By_Video.csv` after the positional
rename of `ken_dashboard.py:93-113` (field order = the renamed column
order).  Count columns are `int64`, monetary/percentage columns `float64`,
the two time columns are strings. -/
structure RawAggRow where
  video : String
  videoTitle : String
  videoPublishTime : String
  commentsAdded : Int
  shares : Int
  dislikes : Int
  likes : Int
  subscribersLost : Int
  subscribersGained : Int
  rpmUSD : ℚ
  cpmUSD : ℚ
  averagePctViewed : ℚ
  averageViewDuration : String
  views : Int
  watchTimeHours : ℚ
  subscribers : Int
  estimatedRevenueUSD : ℚ
  impressions : Int
  impressionsCTR : ℚ
deriving DecidableEq, Repr

/-- The `datetime.datetime` object that `strptime(x, "%H:%M:%S")` stores in
the `Average View Duration` column; its dtype is `object`, not numeric. -/
structure HMS where
  hour : Nat
  minute : Nat
  second : Nat
deriving DecidableEq, Repr

/-- A row of the engineered aggregate frame produced by `engineer_df_agg`:
columns in frame order; `video`/`videoTitle` are `object`,
`videoPublishTime` is `datetime64`, `averageViewDuration` is `object`, and
the remaining 18 columns are the `int64`/`float64` columns picked up by the
`numeric_cols` dtype mask of `ken_dashboard.py:193-195`. -/
structure AggRow where
  video : String
  videoTitle : String
  videoPublishTime : Date
  commentsAdded : PVal
  shares : PVal
  dislikes : PVal
  likes : PVal
  subscribersLost : PVal
  subscribersGained : PVal
  rpmUSD : PVal
  cpmUSD : PVal
  averagePctViewed : PVal
  averageViewDuration : HMS
  views : PVal
  watchTimeHours : PVal
  subscribers : PVal
  estimatedRevenueUSD : PVal
  impressions : PVal
  impressionsCTR : PVal
  avgDurationSec : PVal
  engagementRat : PVal
  viewsPerSubsGained : PVal
deriving DecidableEq, Repr

instance : Inhabited AggRow :=
  ⟨{ video := "", videoTitle := "", videoPublishTime := default,
     commentsAdded := .num 0, shares := .num 0, dislikes := .num 0,
     likes := .num 0, subscribersLost := .num 0, subscribersGained := .num 0,
     rpmUSD := .num 0, cpmUSD := .num 0, averagePctViewed := .num 0,
     averageViewDuration := ⟨0, 0, 0⟩, views := .num 0,
     watchTimeHours := .num 0, subscribers := .num 0,
     estimatedRevenueUSD := .num 0, impressions := .num 0,
     impressionsCTR := .num 0, avgDurationSec := .num 0,
     engagementRat := .num 0, viewsPerSubsGained := .num 0 }⟩

/-- The 18 numeric (`int64`/`float64`) columns of the engineered frame —
exactly the columns selected by the dtype mask in `get_vid_stat_trends`. -/
inductive NumCol where
  | commentsAdded | shares | dislikes | likes | subscribersLost
  | subscribersGained | rpmUSD | cpmUSD | averagePctViewed | views
  | watchTimeHours | subscribers | estimatedRevenueUSD | impressions
  | impressionsCTR | avgDurationSec | engagementRat | viewsPerSubsGained
deriving DecidableEq, Repr

/-- Read a numeric column of a row. -/
def AggRow.getNum (r : AggRow) : NumCol → PVal
  | .commentsAdded => r.commentsAdded
  | .shares => r.shares
  | .dislikes => r.dislikes
  | .likes => r.likes
  | .subscribersLost => r.subscribersLost
  | .subscribersGained => r.subscribersGained
  | .rpmUSD => r.rpmUSD
  | .cpmUSD => r.cpmUSD
  | .averagePctViewed => r.averagePctViewed
  | .views => r.views
  | .watchTimeHours => r.watchTimeHours
  | .subscribers => r.subscribers
  | .estimatedRevenueUSD => r.estimatedRevenueUSD
  | .impressions => r.impressions
  | .impressionsCTR => r.impressionsCTR
  | .avgDurationSec => r.avgDurationSec
  | .engagementRat => r.engagementRat
  | .viewsPerSubsGained => r.viewsPerSubsGained

/-! ## numpy argsort (`kind='quicksort'`) and pandas descending sort

`df_agg.sort_values("Video Publish Time", ascending=False)` takes
`indexer = nargsort(column, kind='quicksort', ascending=False)` and reorders
the frame by it.  `nargsort` (pandas `core/sorting.py`) reverses the values
and the positions, argsorts ascending, and reverses the indexer.  numpy's
`argsort(kind='quicksort')` is the introsort of `npysort/quicksort.c.src`:
median-of-3 quicksort partitioning down to runs of at most
`SMALL_QUICKSORT = 15` elements, which are finished by a stable insertion
sort.  (The depth-limited heapsort fallback is omitted here; it is
unreachable at the recursion depths of the inputs considered.)  -/

/-- `INTP_SWAP` of two positions of the index array. -/
def swapIdx (a : List Nat) (i j : Nat) : List Nat :=
  let ai := a.getD i 0
  let aj := a.getD j 0
  (a.set i aj).set j ai

/-- The key `v[a[i]]` an argsort comparison reads. -/
def keyAt (v : List Date) (a : List Nat) (i : Nat) : Date :=
  v.getD (a.getD i 0) default

/-- Stable insertion of index `i` into an (ascending) index list: numpy's
insertion sort moves `i` left while its key is strictly less than its left
neighbour's, i.e. `i` lands after every index of equal or smaller key. -/
def insIdx (v : List Date) (i : Nat) : List Nat → List Nat
  | [] => [i]
  | j :: rest =>
      if Date.lt (v.getD i default) (v.getD j default) then i :: j :: rest
      else j :: insIdx v i rest

/-- numpy's small-array insertion argsort of an index list. -/
def insArgsort (v : List Date) (l : List Nat) : List Nat :=
  l.foldl (fun acc i => insIdx v i acc) []

/-- The insertion pass applied in place to the subrange `[pl, pr]` of the
index array. -/
def insRange (v : List Date) (a : List Nat) (pl pr : Nat) : List Nat :=
  a.take pl ++ insArgsort v ((a.drop pl).take (pr + 1 - pl)) ++ a.drop (pr + 1)

/-- `do ++pi; while (v[a[pi]] < vp)` — the left-to-right partition scan. -/
def scanUp (v : List Date) (vp : Date) (a : List Nat) : Nat → Nat → Nat
  | 0, pi => pi
  | fuel + 1, pi =>
      if Date.lt (keyAt v a pi) vp then scanUp v vp a fuel (pi + 1) else pi

/-- `do --pj; while (vp < v[a[pj]])` — the right-to-left partition scan. -/
def scanDn (v : List Date) (vp : Date) (a : List Nat) : Nat → Nat → Nat
  | 0, pj => pj
  | fuel + 1, pj =>
      if Date.lt vp (keyAt v a (pj - 1)) then scanDn v vp a fuel (pj - 1)
      else pj - 1

/-- The swap loop of the Hoare-style partition; returns the array and the
final `pi`.  The loop breaks only once the scans have strictly crossed
(`pj < pi`); when they meet on a pivot-equal element it still swaps (a
no-op) and runs one more scan round, as the C loop does. -/
def partLoop (v : List Date) (vp : Date) : Nat → List Nat → Nat → Nat →
    List Nat × Nat
  | 0, a, pi, _ => (a, pi)
  | fuel + 1, a, pi, pj =>
      let pi2 := scanUp v vp a a.length (pi + 1)
      let pj2 := scanDn v vp a a.length pj
      if pj2 < pi2 then (a, pi2)
      else partLoop v vp fuel (swapIdx a pi2 pj2) pi2 pj2

/-- One median-of-3 partition step of `npy_aquicksort` on `[pl, pr]`. -/
def partitionStep (v : List Date) (a : List Nat) (pl pr : Nat) :
    List Nat × Nat :=
  let pm := pl + (pr - pl) / 2
  let a1 := if Date.lt (keyAt v a pm) (keyAt v a pl) then swapIdx a pm pl else a
  let a2 := if Date.lt (keyAt v a1 pr) (keyAt v a1 pm) then swapIdx a1 pr pm else a1
  let a3 := if Date.lt (keyAt v a2 pm) (keyAt v a2 pl) then swapIdx a2 pm pl else a2
  let vp := keyAt v a3 pm
  let a4 := swapIdx a3 pm (pr - 1)
  let res := partLoop v vp a4.length a4 pl (pr - 1)
  (swapIdx res.1 res.2 (pr - 1), res.2)

/-- `npy_aquicksort` on the subrange `[pl, pr]` of the index array:
partition while the run is longer than `SMALL_QUICKSORT = 15`, insertion
sort below that.  `fuel` only bounds the recursion; every run of at most 16
elements is handled by the insertion branch regardless of fuel. -/
def aqsortAux (v : List Date) : Nat → List Nat → Nat → Nat → List Nat
  | 0, a, pl, pr => if 15 < pr - pl then a else insRange v a pl pr
  | fuel + 1, a, pl, pr =>
      if 15 < pr - pl then
        let res := partitionStep v a pl pr
        let a2 := aqsortAux v fuel res.1 (res.2 + 1) pr
        aqsortAux v fuel a2 pl (res.2 - 1)
      else insRange v a pl pr

/-- numpy `argsort(kind='quicksort')` of a date column. -/
def npArgsortQuick (v : List Date) : List Nat :=
  aqsortAux v v.length (List.range v.length) 0 (v.length - 1)

/-- pandas `nargsort(column, kind='quicksort', ascending=False)`
(`pandas/core/sorting.py`): reverse values and positions, argsort ascending,
reverse the indexer.  The publish-time column contains no NaT, so the NaN
mask is empty. -/
def nargsortDesc (v : List Date) : List Nat :=
  let idxrev := (List.range v.length).reverse
  let s := npArgsortQuick v.reverse
  (s.map (fun p => idxrev.getD p 0)).reverse

/-- `df_agg.sort_values("Video Publish Time", ascending=False)`
(`ken_dashboard.py:139`): reorder the rows by the descending indexer. -/
def sortByPublishDesc (t : List AggRow) : List AggRow :=
  (nargsortDesc (t.map (fun r => r.videoPublishTime))).map
    (fun i => t.getD i default)

/-! ## `engineer_df_agg` and `engineer_df_time` -/

/-- Sequence a list of optional results: any parse failure anywhere in a
column raises out of the whole engineering call. -/
def seqOpt {α : Type} : List (Option α) → Option (List α)
  | [] => some []
  | none :: _ => none
  | some a :: rest => (seqOpt rest).map (fun l => a :: l)

/-- The per-row work of `engineer_df_agg` (`ken_dashboard.py:116-136`):
parse the publish time (`%b %d, %Y`) and the average view duration
(`%H:%M:%S`), derive `AVG_DURATION_SEC = second + minute*60 + hour*3600`,
`ENGAGEMENT_RATIO = (comments+shares+likes+dislikes)/views` and
`VIEWS / SUBS_GAINED = views/subscribersGained` (numpy float division:
division by zero yields the non-finite sentinels, no exception). -/
def engineerAggRow (r : RawAggRow) : Option AggRow :=
  match parseMbDY r.videoPublishTime, parseHMS r.averageViewDuration with
  | some pub, some hms =>
      some {
        video := r.video
        videoTitle := r.videoTitle
        videoPublishTime := pub
        commentsAdded := .num r.commentsAdded
        shares := .num r.shares
        dislikes := .num r.dislikes
        likes := .num r.likes
        subscribersLost := .num r.subscribersLost
        subscribersGained := .num r.subscribersGained
        rpmUSD := .num r.rpmUSD
        cpmUSD := .num r.cpmUSD
        averagePctViewed := .num r.averagePctViewed
        averageViewDuration := ⟨hms.1, hms.2.1, hms.2.2⟩
        views := .num r.views
        watchTimeHours := .num r.watchTimeHours
        subscribers := .num r.subscribers
        estimatedRevenueUSD := .num r.estimatedRevenueUSD
        impressions := .num r.impressions
        impressionsCTR := .num r.impressionsCTR
        avgDurationSec :=
          .num ((hms.2.2 : ℚ) + (hms.2.1 : ℚ) * 60 + (hms.1 : ℚ) * 3600)
        engagementRat :=
          PVal.div
            (.num ((r.commentsAdded : ℚ) + (r.shares : ℚ) + (r.likes : ℚ)
                    + (r.dislikes : ℚ)))
            (.num (r.views : ℚ))
        viewsPerSubsGained :=
          PVal.div (.num (r.views : ℚ)) (.num (r.subscribersGained : ℚ)) }
  | _, _ => none

/-- `engineer_df_agg` (`ken_dashboard.py:73-141`): rename (reflected in the
field names), parse and derive per row, then sort descending by publish
time.  The column-at-a-time `apply`s of the source are row-independent, so
row-wise sequencing is equivalent. -/
def engineer_df_agg (t : List RawAggRow) : Option (List AggRow) :=
  (seqOpt (t.map engineerAggRow)).map sortByPublishDesc

/-- A raw row of `Video_Performance_Over_Time.csv`: the `Date` string plus
(representative) daily metrics. -/
structure RawTimeRow where
  date : String
  video : String
  views : Int
deriving DecidableEq, Repr

/-- An engineered time-series row: the date parsed. -/
structure TimeRow where
  date : Date
  video : String
  views : Int
deriving DecidableEq, Repr

/-- Per-row work of `engineer_df_time` (`ken_dashboard.py:157-159`):
normalise `"Sept"` to `"Sep"`, then parse with `%d %b %Y`. -/
def engineerTimeRow (r : RawTimeRow) : Option TimeRow :=
  (parseDMY (normalizeSept r.date)).map (fun d => ⟨d, r.video, r.views⟩)

/-- `engineer_df_time` (`ken_dashboard.py:144-161`): `errors='raise'` being
the `pd.to_datetime` default, a single non-matching date string fails the
whole call. -/
def engineer_df_time (t : List RawTimeRow) : Option (List TimeRow) :=
  seqOpt (t.map engineerTimeRow)

/-! ## `get_vid_stat_trends` and `get_header_stats` -/

/-- `df["Video Publish Time"].max()` — `none` models the NaT a pandas max
returns on an empty frame (every subsequent `>=` comparison with it is
False). -/
def maxPubDate : List AggRow → Option Date
  | [] => none
  | r :: rest =>
      some (rest.foldl
        (fun mx x => if Date.le mx x.videoPublishTime then x.videoPublishTime else mx)
        r.videoPublishTime)

/-- `df[df["Video Publish Time"] >= max - DateOffset(months=12)]`
(`ken_dashboard.py:185-190`). -/
def window12 (t : List AggRow) : List AggRow :=
  match maxPubDate t with
  | none => []
  | some mx => t.filter (fun r => Date.le mx.subMonths12 r.videoPublishTime)

/-- `df[df["Video Publish Time"] >= max - DateOffset(months=6)]`
(`ken_dashboard.py:253-262`). -/
def window6 (t : List AggRow) : List AggRow :=
  match maxPubDate t with
  | none => []
  | some mx => t.filter (fun r => Date.le mx.subMonths6 r.videoPublishTime)

/-- The trailing-12-month median of one numeric column
(`.median(numeric_only=True)` over the filtered frame,
`ken_dashboard.py:188-190`). -/
def median12Col (t : List AggRow) (c : NumCol) : PVal :=
  medianPVal ((window12 t).map (fun r => r.getNum c))

/-- The trailing-6-month median of one numeric column
(`ken_dashboard.py:260-262`). -/
def median6Col (t : List AggRow) (c : NumCol) : PVal :=
  medianPVal ((window6 t).map (fun r => r.getNum c))

/-- `(value - median) / median` — the raw fractional deviation
(`(x - median).div(median)`, no multiplication by 100). -/
def devVal (v m : PVal) : PVal := PVal.div (PVal.sub v m) m

/-- Replace every numeric cell of a row by its deviation from the column
median; the `object` and `datetime64` columns fall outside the
`int64|float64` mask and pass through (`ken_dashboard.py:193-198`). -/
def applyDev (med : NumCol → PVal) (r : AggRow) : AggRow :=
  { r with
    commentsAdded := devVal r.commentsAdded (med .commentsAdded)
    shares := devVal r.shares (med .shares)
    dislikes := devVal r.dislikes (med .dislikes)
    likes := devVal r.likes (med .likes)
    subscribersLost := devVal r.subscribersLost (med .subscribersLost)
    subscribersGained := devVal r.subscribersGained (med .subscribersGained)
    rpmUSD := devVal r.rpmUSD (med .rpmUSD)
    cpmUSD := devVal r.cpmUSD (med .cpmUSD)
    averagePctViewed := devVal r.averagePctViewed (med .averagePctViewed)
    views := devVal r.views (med .views)
    watchTimeHours := devVal r.watchTimeHours (med .watchTimeHours)
    subscribers := devVal r.subscribers (med .subscribers)
    estimatedRevenueUSD := devVal r.estimatedRevenueUSD (med .estimatedRevenueUSD)
    impressions := devVal r.impressions (med .impressions)
    impressionsCTR := devVal r.impressionsCTR (med .impressionsCTR)
    avgDurationSec := devVal r.avgDurationSec (med .avgDurationSec)
    engagementRat := devVal r.engagementRat (med .engagementRat)
    viewsPerSubsGained := devVal r.viewsPerSubsGained (med .viewsPerSubsGained) }

/-- `get_vid_stat_trends` (`ken_dashboard.py:164-200`): work on a copy,
compute the 12-month medians of the numeric columns, and replace every
numeric cell by `(value - median) / median`. -/
def get_vid_stat_trends (t : List AggRow) : List AggRow :=
  t.map (applyDev (fun c => median12Col t c))

/-- The 11 columns selected into `header_metrics_df`
(`ken_dashboard.py:235-247`): `Video Publish Time` is `datetime64` (no
numeric column), the other ten are numeric. -/
def headerSelect : List (String × Option NumCol) :=
  [("Video Publish Time", none),
   ("Views", some .views),
   ("Likes", some .likes),
   ("Subscribers", some .subscribers),
   ("Shares", some .shares),
   ("Comments Added", some .commentsAdded),
   ("RPM(USD)", some .rpmUSD),
   ("Average % Viewed", some .averagePctViewed),
   ("AVG_DURATION_SEC", some .avgDurationSec),
   ("ENGAGEMENT_RATIO", some .engagementRat),
   ("VIEWS / SUBS_GAINED", some .viewsPerSubsGained)]

/-- `get_header_stats` (`ken_dashboard.py:203-266`): the 6-month medians of
the selected columns and the trend `(median6 - median12) / median12`.
`median(numeric_only=True)` keeps only the `int64`/`float64` columns of the
selection (the `filterMap`), so the returned Series are indexed by the ten
numeric names. -/
def get_header_stats (t : List AggRow) :
    List (String × PVal) × List (String × PVal) :=
  (headerSelect.filterMap (fun p => p.2.map (fun c => (p.1, median6Col t c))),
   headerSelect.filterMap (fun p =>
     p.2.map (fun c => (p.1, devVal (median6Col t c) (median12Col t c)))))

/-- `get_vid_stat_trends` as it executes against the object store: dataframes
live in a heap of references, `df_agg.copy()` allocates a fresh reference
(`ken_dashboard.py:183`), and the single `iloc` assignment writes through the
copy's reference only (`ken_dashboard.py:196-198`).  Returns the heap after
the call, the next free reference, and the reference of the result. -/
def gvstProg (heap : Nat → List AggRow) (next ref : Nat) :
    (Nat → List AggRow) × Nat × Nat :=
  let copyRef := next
  let heap1 := fun i => if i = copyRef then heap ref else heap i
  let heap2 := fun i =>
    if i = copyRef then get_vid_stat_trends (heap1 copyRef) else heap1 i
  (heap2, next + 1, copyRef)

/-! ## Concrete inputs used to instantiate the theorems -/

/-- An engineered aggregate row with the given title, publish date and view
count (all other cells zero). -/
def exRow (title : String) (d : Date) (vw : ℚ) : AggRow :=
  { (default : AggRow) with
      videoTitle := title, videoPublishTime := d, views := .num vw }

/-- Two videos published the same day with 1 and 3 views. -/
def exTable2 : List AggRow := [exRow ("a") ⟨2024, 1, 1⟩ 1, exRow ("b") ⟨2024, 1, 1⟩ 3]

/-- Two videos published the same day with 1 and 5 views. -/
def exTable2b : List AggRow := [exRow ("a") ⟨2024, 1, 1⟩ 1, exRow ("b") ⟨2024, 1, 1⟩ 5]

/-- The three-date sorting scenario of the specification: publish dates
2024-01-01, 2024-03-01, 2024-02-01 in input order. -/
def exTable3 : List AggRow :=
  [exRow ("a") ⟨2024, 1, 1⟩ 1, exRow ("b") ⟨2024, 3, 1⟩ 2, exRow ("c") ⟨2024, 2, 1⟩ 3]

/-- Seventeen videos, all published 2024-03-03 — one more row than numpy's
`SMALL_QUICKSORT` insertion-sort regime, so `sort_values` runs a quicksort
partition across the ties. -/
def exTable17 : List AggRow :=
  (List.range 17).map (fun i => exRow ("v" ++ toString i) ⟨2024, 3, 3⟩ (i : ℚ))

/-- A parseable raw aggregate row. -/
def exRawRow : RawAggRow :=
  { video := "vid1", videoTitle := "t1", videoPublishTime := "Jan 05, 2024",
    commentsAdded := 2, shares := 1, dislikes := 0, likes := 7,
    subscribersLost := 0, subscribersGained := 4, rpmUSD := 1, cpmUSD := 2,
    averagePctViewed := 50, averageViewDuration := "0:1:30", views := 100,
    watchTimeHours := 3, subscribers := 10, estimatedRevenueUSD := 5,
    impressions := 1000, impressionsCTR := 4 }

/-- The degenerate-division scenario of the specification: `Views = 0`,
`Comments = 1`, everything else in the engagement numerator zero. -/
def exRawRowV0 : RawAggRow :=
  { exRawRow with views := 0, commentsAdded := 1, shares := 0, likes := 0,
                  dislikes := 0 }

/-- The ten numeric names the header-metric Series are indexed by. -/
def headerNames10 : List String :=
  ["Views", "Likes", "Subscribers", "Shares", "Comments Added", "RPM(USD)",
   "Average % Viewed", "AVG_DURATION_SEC", "ENGAGEMENT_RATIO",
   "VIEWS / SUBS_GAINED"]

/-- The canonical duration string `"H:M:S"` for given integer components. -/
def fmtHMS (h m s : Nat) : String :=
  Nat.repr h ++ ":" ++ Nat.repr m ++ ":" ++ Nat.repr s

/-! ## Supporting lemmas -/

theorem Date.lt_trans {a b c : Date} (h1 : Date.lt a b = true)
    (h2 : Date.lt b c = true) : Date.lt a c = true := by
  unfold Date.lt at *
  split_ifs at * <;> simp_all <;> omega

theorem Date.not_lt_total {a b : Date} (h : Date.lt a b = false) :
    Date.lt b a = true ∨ a = b := by
  rcases a with ⟨ay, am, ad⟩
  rcases b with ⟨by_, bm, bd⟩
  unfold Date.lt at *
  simp only [Date.mk.injEq]
  split_ifs at * <;> simp_all <;> omega

theorem Date.lt_asymm {a b : Date} (h : Date.lt a b = true) :
    Date.lt b a = false := by
  unfold Date.lt at *
  split_ifs at * <;> simp_all <;> omega

theorem Date.le_of_not_lt {a b : Date} (h : Date.lt a b = false) :
    Date.le b a = true := by
  unfold Date.lt at h
  unfold Date.le
  split_ifs at * <;> simp_all <;> omega

theorem Date.le_subMonths12 (d : Date) : Date.le d.subMonths12 d = true := by
  have h : d.year - 1 ≠ d.year := by omega
  unfold Date.le Date.subMonths12
  simp only [h, if_true]
  simp

theorem seqOpt_eq_none {α : Type} (l : List (Option α)) (h : none ∈ l) :
    seqOpt l = none := by
  induction l with
  | nil => cases h
  | cons x rest ih =>
    cases x with
    | none => rfl
    | some a =>
      have : none ∈ rest := by
        rcases List.mem_cons.mp h with h2 | h2
        · cases h2
        · exact h2
      simp [seqOpt, ih this]

theorem maxPubDate_attained (l : List AggRow) (seed : Date) :
    l.foldl (fun mx x =>
      if Date.le mx x.videoPublishTime then x.videoPublishTime else mx) seed
        = seed ∨
    ∃ r ∈ l, r.videoPublishTime =
      l.foldl (fun mx x =>
        if Date.le mx x.videoPublishTime then x.videoPublishTime else mx) seed := by
  induction l generalizing seed with
  | nil => left; rfl
  | cons y l ih =>
    have hstep : (y :: l).foldl (fun mx x =>
        if Date.le mx x.videoPublishTime then x.videoPublishTime else mx) seed
      = l.foldl (fun mx x =>
          if Date.le mx x.videoPublishTime then x.videoPublishTime else mx)
          (if Date.le seed y.videoPublishTime then y.videoPublishTime else seed) := rfl
    rcases ih (if Date.le seed y.videoPublishTime then y.videoPublishTime else seed)
      with h | ⟨r, hr, hre⟩
    · by_cases hc : Date.le seed y.videoPublishTime = true
      · right
        refine ⟨y, List.mem_cons_self y l, ?_⟩
        rw [hstep, h]
        simp [hc]
      · left
        rw [hstep, h]
        simp [hc]
    · right
      exact ⟨r, List.mem_cons_of_mem y hr, by rw [hstep]; exact hre⟩

theorem maxPubDate_mem (t : List AggRow) (mx : Date)
    (h : maxPubDate t = some mx) : ∃ r ∈ t, r.videoPublishTime = mx := by
  cases t with
  | nil => cases h
  | cons y l =>
    have hm : mx = l.foldl (fun a x =>
        if Date.le a x.videoPublishTime then x.videoPublishTime else a)
        y.videoPublishTime := by
      simpa [maxPubDate] using h.symm
    rcases maxPubDate_attained l y.videoPublishTime with h2 | ⟨r, hr, hre⟩
    · exact ⟨y, List.mem_cons_self y l, by rw [hm, h2]⟩
    · exact ⟨r, List.mem_cons_of_mem y hr, by rw [hm, ← hre]⟩

theorem takeDigits2_reprColon (n : Nat) (h : n ≤ 59) (rest : List Char) :
    takeDigits2 ((Nat.repr n).data ++ ':' :: rest) = some (n, ':' :: rest) := by
  interval_cases n <;> rfl

theorem takeDigits2_reprEnd (n : Nat) (h : n ≤ 59) :
    takeDigits2 (Nat.repr n).data = some (n, []) := by
  interval_cases n <;> rfl

theorem Date.lt_irrefl (a : Date) : Date.lt a a = false := by
  unfold Date.lt
  simp

theorem Date.le_refl (a : Date) : Date.le a a = true := by
  unfold Date.le
  simp

theorem Date.le_of_lt {a b : Date} (h : Date.lt a b = true) :
    Date.le a b = true := by
  unfold Date.lt at h
  unfold Date.le
  split_ifs at * <;> simp_all
  omega

theorem insIdx_mem (v : List Date) (i x : Nat) (acc : List Nat) :
    x ∈ insIdx v i acc ↔ x = i ∨ x ∈ acc := by
  induction acc with
  | nil => simp [insIdx]
  | cons j rest ih =>
    unfold insIdx
    split_ifs with hc
    · simp [List.mem_cons]
    · simp only [List.mem_cons, ih]
      tauto

theorem insIdx_perm (v : List Date) (i : Nat) (acc : List Nat) :
    (insIdx v i acc).Perm (i :: acc) := by
  induction acc with
  | nil => simp [insIdx]
  | cons j rest ih =>
    unfold insIdx
    split_ifs with hc
    · exact List.Perm.refl _
    · exact (ih.cons j).trans (List.Perm.swap i j rest)

theorem insIdx_pairwise (v : List Date) (i : Nat) (acc : List Nat)
    (hacc : acc.Pairwise (fun x y =>
      Date.lt (v.getD x default) (v.getD y default) = true ∨
        (v.getD x default = v.getD y default ∧ x < y)))
    (hlt : ∀ j ∈ acc, j < i) :
    (insIdx v i acc).Pairwise (fun x y =>
      Date.lt (v.getD x default) (v.getD y default) = true ∨
        (v.getD x default = v.getD y default ∧ x < y)) := by
  induction acc with
  | nil => simp [insIdx]
  | cons j rest ih =>
    rcases List.pairwise_cons.mp hacc with ⟨hj, hrest⟩
    unfold insIdx
    split_ifs with hc
    · refine List.pairwise_cons.mpr ⟨?_, hacc⟩
      intro y hy
      rcases List.mem_cons.mp hy with rfl | hy2
      · exact Or.inl hc
      · rcases hj y hy2 with h2 | ⟨h2e, h2lt⟩
        · exact Or.inl (Date.lt_trans hc h2)
        · exact Or.inl (by rw [← h2e]; exact hc)
    · refine List.pairwise_cons.mpr
        ⟨?_, ih hrest (fun x hx => hlt x (List.mem_cons_of_mem j hx))⟩
      intro y hy
      rcases (insIdx_mem v i y rest).mp hy with rfl | hy2
      · rcases Date.not_lt_total (Bool.eq_false_iff.mpr hc) with h2 | h2
        · exact Or.inl h2
        · exact Or.inr ⟨h2.symm, hlt j (List.mem_cons_self j rest)⟩
      · exact hj y hy2

theorem insArgsort_aux (v : List Date) (l acc : List Nat)
    (hacc : acc.Pairwise (fun x y =>
      Date.lt (v.getD x default) (v.getD y default) = true ∨
        (v.getD x default = v.getD y default ∧ x < y)))
    (hcross : ∀ j ∈ acc, ∀ i ∈ l, j < i)
    (hl : l.Pairwise (· < ·)) :
    (l.foldl (fun a i => insIdx v i a) acc).Pairwise (fun x y =>
      Date.lt (v.getD x default) (v.getD y default) = true ∨
        (v.getD x default = v.getD y default ∧ x < y)) ∧
    (l.foldl (fun a i => insIdx v i a) acc).Perm (acc ++ l) := by
  induction l generalizing acc with
  | nil => exact ⟨hacc, by simp⟩
  | cons i l ih =>
    rcases List.pairwise_cons.mp hl with ⟨hil, hl2⟩
    have hstep : (i :: l).foldl (fun a x => insIdx v x a) acc
        = l.foldl (fun a x => insIdx v x a) (insIdx v i acc) := rfl
    have hacc2 := insIdx_pairwise v i acc hacc
      (fun j hj => hcross j hj i (List.mem_cons_self i l))
    have hcross2 : ∀ j ∈ insIdx v i acc, ∀ x ∈ l, j < x := by
      intro j hj x hx
      rcases (insIdx_mem v i j acc).mp hj with rfl | hj2
      · exact hil x hx
      · exact hcross j hj2 x (List.mem_cons_of_mem i hx)
    rcases ih (insIdx v i acc) hacc2 hcross2 hl2 with ⟨hp, hperm⟩
    refine ⟨by rw [hstep]; exact hp, ?_⟩
    rw [hstep]
    refine hperm.trans ?_
    refine (List.Perm.append_right l (insIdx_perm v i acc)).trans ?_
    exact List.perm_middle.symm

theorem insArgsort_range (v : List Date) (n : Nat) :
    (insArgsort v (List.range n)).Pairwise (fun x y =>
      Date.lt (v.getD x default) (v.getD y default) = true ∨
        (v.getD x default = v.getD y default ∧ x < y)) ∧
    (insArgsort v (List.range n)).Perm (List.range n) := by
  have h := insArgsort_aux v (List.range n) [] List.Pairwise.nil (by simp)
    (List.pairwise_lt_range n)
  simpa [insArgsort] using h

theorem npArgsortQuick_small (v : List Date) (h : v.length ≤ 16) :
    npArgsortQuick v = insArgsort v (List.range v.length) := by
  have hg : ¬ 15 < v.length - 1 - 0 := by omega
  have htake : (List.range v.length).take (v.length - 1 + 1 - 0)
      = List.range v.length := by
    apply List.take_of_length_le
    simp
    omega
  have hdrop : (List.range v.length).drop (v.length - 1 + 1) = [] := by
    apply List.drop_eq_nil_of_le
    simp
    omega
  unfold npArgsortQuick
  cases hfuel : v.length with
  | zero =>
    have hvnil : v.length = 0 := hfuel
    simp [aqsortAux, insRange, insArgsort, hvnil]
  | succ k =>
    rw [hfuel] at hg htake hdrop
    simp only [aqsortAux, hg, if_false, insRange, List.drop_zero, List.take_zero,
      List.nil_append, htake, hdrop, List.append_nil]

theorem getD_range_reverse (n q : Nat) (h : q < n) :
    ((List.range n).reverse).getD q 0 = n - 1 - q := by
  have hlen : q < ((List.range n).reverse).length := by simpa using h
  rw [List.getD_eq_getElem _ _ hlen]
  simp [List.getElem_reverse]

theorem getD_reverse_nat (l : List Nat) (i : Nat) (h : i < l.length) :
    l.reverse.getD i 0 = l.getD (l.length - 1 - i) 0 := by
  have h1 : i < l.reverse.length := by simpa using h
  have h2 : l.length - 1 - i < l.length := by omega
  rw [List.getD_eq_getElem _ _ h1, List.getElem_reverse,
    List.getD_eq_getElem _ _ h2]

theorem getD_map_nat (l : List Nat) (f : Nat → Nat) (i : Nat)
    (h : i < l.length) : (l.map f).getD i 0 = f (l.getD i 0) := by
  have h1 : i < (l.map f).length := by simpa using h
  rw [List.getD_eq_getElem _ _ h1, List.getElem_map, List.getD_eq_getElem _ _ h]

theorem getD_map_row (l : List Nat) (f : Nat → AggRow) (i : Nat)
    (h : i < l.length) : (l.map f).getD i default = f (l.getD i 0) := by
  have h1 : i < (l.map f).length := by simpa using h
  rw [List.getD_eq_getElem _ _ h1, List.getElem_map, List.getD_eq_getElem _ _ h]

theorem getD_map_proj (t : List AggRow) (q : Nat) (h : q < t.length) :
    (t.map (fun r => r.videoPublishTime)).getD q default
      = (t.getD q default).videoPublishTime := by
  have h1 : q < (t.map (fun r => r.videoPublishTime)).length := by simpa using h
  rw [List.getD_eq_getElem _ _ h1, List.getElem_map, List.getD_eq_getElem _ _ h]

/-- In the insertion-sort regime (at most 16 values), pandas' descending
`nargsort` indexer is a permutation of the positions, sorts the keys
descending, and keeps ties in ascending original position (stability). -/
theorem nargsortDesc_small (keys : List Date) (h16 : keys.length ≤ 16) :
    (nargsortDesc keys).Perm (List.range keys.length) ∧
    (nargsortDesc keys).length = keys.length ∧
    (∀ i j, i < j → j < keys.length →
      Date.le (keys.getD ((nargsortDesc keys).getD j 0) default)
              (keys.getD ((nargsortDesc keys).getD i 0) default) = true) ∧
    (∀ i j, i < j → j < keys.length →
      keys.getD ((nargsortDesc keys).getD i 0) default
        = keys.getD ((nargsortDesc keys).getD j 0) default →
      (nargsortDesc keys).getD i 0 < (nargsortDesc keys).getD j 0) := by
  set n := keys.length with hn
  have hvlen : keys.reverse.length = n := by simp [hn]
  have hq : npArgsortQuick keys.reverse
      = insArgsort keys.reverse (List.range n) := by
    have h2 := npArgsortQuick_small keys.reverse (by omega)
    rwa [hvlen] at h2
  obtain ⟨hpair, hperm⟩ := insArgsort_range keys.reverse n
  set s := insArgsort keys.reverse (List.range n) with hs
  have hslen : s.length = n := by rw [hperm.length_eq]; simp
  have hsmem : ∀ x ∈ s, x < n := fun x hx =>
    List.mem_range.mp (hperm.mem_iff.mp hx)
  have hpd : nargsortDesc keys = (s.map (fun q => n - 1 - q)).reverse := by
    have h0 : nargsortDesc keys
        = ((npArgsortQuick keys.reverse).map
            (fun p => ((List.range n).reverse).getD p 0)).reverse := rfl
    rw [h0, hq,
      List.map_congr_left (fun q hq2 => getD_range_reverse n q (hsmem q hq2))]
  have hplen : (nargsortDesc keys).length = n := by simp [hpd, hslen]
  have hsget : ∀ x, x < n → s.getD x 0 < n := by
    intro x hx
    have hx2 : x < s.length := by omega
    rw [List.getD_eq_getElem _ _ hx2]
    exact hsmem _ (List.getElem_mem hx2)
  have hpget : ∀ i, i < n → (nargsortDesc keys).getD i 0
      = n - 1 - s.getD (n - 1 - i) 0 := by
    intro i hi
    have h1 : i < (s.map (fun q => n - 1 - q)).length := by
      simp [hslen]
      omega
    have h3 : (s.map (fun q => n - 1 - q)).length - 1 - i = n - 1 - i := by
      simp [hslen]
    rw [hpd, getD_reverse_nat _ _ h1, h3, getD_map_nat _ _ _ (by omega)]
  have hrevget : ∀ q, q < n → keys.reverse.getD q default
      = keys.getD (n - 1 - q) default := by
    intro q hq2
    have h1 : q < keys.reverse.length := by omega
    have h2 : n - 1 - q < keys.length := by omega
    rw [List.getD_eq_getElem _ _ h1, List.getElem_reverse,
      List.getD_eq_getElem _ _ h2]
  have hpairpos := List.pairwise_iff_getElem.mp hpair
  have hkey : ∀ i, i < n → keys.getD ((nargsortDesc keys).getD i 0) default
      = keys.reverse.getD (s.getD (n - 1 - i) 0) default := by
    intro i hi
    rw [hpget i hi, hrevget _ (hsget _ (by omega))]
  refine ⟨?_, hplen, ?_, ?_⟩
  · rw [hpd]
    refine (List.reverse_perm _).trans ?_
    have hmr : (List.range n).map (fun q => n - 1 - q)
        = (List.range n).reverse := by
      apply List.ext_getElem
      · simp
      · intro i h1 h2
        simp [List.getElem_reverse]
    refine (hperm.map (fun q => n - 1 - q)).trans ?_
    rw [hmr]
    exact List.reverse_perm _
  · intro i j hij hj
    have hi : i < n := by omega
    rw [hkey i hi, hkey j hj]
    have ha : n - 1 - j < s.length := by omega
    have hb : n - 1 - i < s.length := by omega
    have hab : n - 1 - j < n - 1 - i := by omega
    have hS := hpairpos (n - 1 - j) (n - 1 - i) ha hb hab
    rw [List.getD_eq_getElem _ _ ha, List.getD_eq_getElem _ _ hb]
    rcases hS with h2 | ⟨h2e, h2lt⟩
    · exact Date.le_of_lt h2
    · rw [h2e]
      exact Date.le_refl _
  · intro i j hij hj heq
    have hi : i < n := by omega
    rw [hkey i hi, hkey j hj] at heq
    have ha : n - 1 - j < s.length := by omega
    have hb : n - 1 - i < s.length := by omega
    have hab : n - 1 - j < n - 1 - i := by omega
    have hS := hpairpos (n - 1 - j) (n - 1 - i) ha hb hab
    rw [List.getD_eq_getElem _ _ ha, List.getD_eq_getElem _ _ hb] at heq
    rw [hpget i hi, hpget j hj]
    rw [List.getD_eq_getElem _ _ hb, List.getD_eq_getElem _ _ ha]
    rcases hS with h2 | ⟨h2e, h2lt⟩
    · rw [← heq] at h2
      rw [Date.lt_irrefl] at h2
      cases h2
    · have hbn : s[n - 1 - i] < n := hsmem _ (List.getElem_mem hb)
      have han : s[n - 1 - j] < n := hsmem _ (List.getElem_mem ha)
      omega

theorem parseHMS_fmt (h m s : Nat) (hh : h ≤ 23) (hm : m ≤ 59) (hs : s ≤ 59) :
    parseHMS (fmtHMS h m s) = some (h, m, s) := by
  have hd : (fmtHMS h m s).data
      = (Nat.repr h).data
          ++ ':' :: ((Nat.repr m).data ++ ':' :: (Nat.repr s).data) := by
    simp [fmtHMS, String.data_append]
  unfold parseHMS
  rw [hd, takeDigits2_reprColon h (by omega)]
  simp only []
  rw [takeDigits2_reprColon m hm]
  simp only []
  rw [takeDigits2_reprEnd s hs]
  simp [hh, hm, hs]

/-! ## The claims -/

/-- C1: for every engineered aggregate table, `get_vid_stat_trends` computes
the trailing-12-month median per numeric metric and replaces every numeric
value of every record with the raw fraction `(value - median) / median` (no
multiplication by 100), while the non-numeric and timestamp columns
(`Video`, `Video Title`, `Video Publish Time`, `Average View Duration`)
pass through unchanged. -/
theorem C1_deviation_vs_baseline (t : List AggRow) (i : Nat)
    (hi : i < t.length) :
    (get_vid_stat_trends t).length = t.length ∧
    (∀ c : NumCol,
      ((get_vid_stat_trends t).getD i default).getNum c =
        PVal.div
          (PVal.sub ((t.getD i default).getNum c)
            (medianPVal ((window12 t).map (fun r => r.getNum c))))
          (medianPVal ((window12 t).map (fun r => r.getNum c)))) ∧
    ((get_vid_stat_trends t).getD i default).video = (t.getD i default).video ∧
    ((get_vid_stat_trends t).getD i default).videoTitle
      = (t.getD i default).videoTitle ∧
    ((get_vid_stat_trends t).getD i default).videoPublishTime
      = (t.getD i default).videoPublishTime ∧
    ((get_vid_stat_trends t).getD i default).averageViewDuration
      = (t.getD i default).averageViewDuration := by
  have h1 : i < (get_vid_stat_trends t).length := by
    simpa [get_vid_stat_trends] using hi
  have hg : (get_vid_stat_trends t).getD i default
      = applyDev (fun c => median12Col t c) (t.getD i default) := by
    rw [List.getD_eq_getElem _ _ h1, List.getD_eq_getElem _ _ hi]
    simp [get_vid_stat_trends]
  refine ⟨by simp [get_vid_stat_trends], ?_, ?_, ?_, ?_, ?_⟩
  · intro c
    rw [hg]
    cases c <;> rfl
  · rw [hg]; rfl
  · rw [hg]; rfl
  · rw [hg]; rfl
  · rw [hg]; rfl

/-- C1 witness: the theorem applied to a concrete two-row table. -/
theorem C1_deviation_vs_baseline_witness :
    ((get_vid_stat_trends exTable2).getD 0 default).getNum .views =
      PVal.div
        (PVal.sub ((exTable2.getD 0 default).getNum .views)
          (medianPVal ((window12 exTable2).map (fun r => r.getNum .views))))
        (medianPVal ((window12 exTable2).map (fun r => r.getNum .views))) :=
  (C1_deviation_vs_baseline exTable2 0 (by decide)).2.1 NumCol.views

/-- C2 counterexample: the claim promises a named set of 11 metrics each
with a 6-month median and a trend, but `median(numeric_only=True)` drops
the `datetime64` column `Video Publish Time` from the 11-column selection,
so the returned Series carry only 10 metrics. -/
theorem C2_counterexample :
    headerSelect.length = 11 ∧
    (get_header_stats exTable2).1.length = 10 ∧
    (get_header_stats exTable2).2.length = 10 ∧
    ("Video Publish Time" ∈ headerSelect.map Prod.fst) ∧
    ("Video Publish Time" ∉ (get_header_stats exTable2).1.map Prod.fst) := by
  decide

/-- C2 (amended): `get_header_stats` selects 11 named columns but returns
Series over the ten numeric metrics only (`Video Publish Time` is excluded
by the numeric-only median); each of the ten holds its trailing-6-month
median and the trend `(median6 - median12) / median12`. -/
theorem C2_header_stats_ten_metrics (t : List AggRow) :
    (get_header_stats t).1.map Prod.fst = headerNames10 ∧
    (get_header_stats t).2.map Prod.fst = headerNames10 ∧
    ∀ n c, (n, some c) ∈ headerSelect →
      (n, median6Col t c) ∈ (get_header_stats t).1 ∧
      (n, PVal.div (PVal.sub (median6Col t c) (median12Col t c))
            (median12Col t c)) ∈ (get_header_stats t).2 := by
  refine ⟨rfl, rfl, ?_⟩
  intro n c hmem
  simp only [headerSelect, List.mem_cons, List.not_mem_nil, or_false,
    Prod.mk.injEq, reduceCtorEq, false_and] at hmem
  rcases hmem with h | h | h | h | h | h | h | h | h | h | h <;>
    (try cases h.2) <;>
    · rw [h.1]
      cases Option.some.inj h.2
      constructor <;> simp [get_header_stats, headerSelect, devVal]

/-- C2 witness: the amended theorem applied to a concrete table and the
`Views` metric. -/
theorem C2_header_stats_ten_metrics_witness :
    ("Views", median6Col exTable2 .views) ∈ (get_header_stats exTable2).1 :=
  ((C2_header_stats_ten_metrics exTable2).2.2 ("Views") NumCol.views
    (by decide)).1

/-- C3 counterexample: on an input whose 12-month lookback window is empty
(the empty table), the median computation silently returns the NaN sentinel
for every metric and `get_vid_stat_trends` / `get_header_stats` return
normally — no error is reported, contradicting the claim. -/
theorem C3_counterexample :
    window12 ([] : List AggRow) = [] ∧
    median12Col ([] : List AggRow) .views = PVal.nan ∧
    get_vid_stat_trends ([] : List AggRow) = [] ∧
    (get_header_stats ([] : List AggRow)).1
      = headerNames10.map (fun n => (n, PVal.nan)) ∧
    (get_header_stats ([] : List AggRow)).2
      = headerNames10.map (fun n => (n, PVal.nan)) := by
  decide

/-- C3 (amended): when the lookback window is empty the baseline medians
silently evaluate to pandas' NaN sentinel — never to zero, but no error is
reported either. -/
theorem C3_empty_window_nan (t : List AggRow) (h : window12 t = [])
    (c : NumCol) :
    median12Col t c = PVal.nan ∧ PVal.nan ≠ PVal.num 0 := by
  constructor
  · unfold median12Col
    rw [h]
    rfl
  · intro hc
    cases hc

/-- C3 witness: the amended theorem at the empty table. -/
theorem C3_empty_window_nan_witness :
    median12Col ([] : List AggRow) .views = PVal.nan ∧
    PVal.nan ≠ PVal.num 0 :=
  C3_empty_window_nan [] (by decide) .views

set_option maxRecDepth 200000 in
/-- C4 counterexample: `sort_values` defaults to `kind='quicksort'`
(numpy introsort), which is not stable beyond the 16-element insertion-sort
regime.  On seventeen records with identical publish times one quicksort
partition permutes the ties: row `v9` ends up before row `v1`, violating
"for every pair of records with equal publish time, their original relative
order is preserved". -/
theorem C4_counterexample :
    (∀ r ∈ exTable17, r.videoPublishTime = (⟨2024, 3, 3⟩ : Date)) ∧
    (sortByPublishDesc exTable17).map (fun r => r.videoTitle)
      = ["v0", "v9", "v15", "v14", "v13", "v12", "v11", "v10", "v8", "v1",
         "v7", "v6", "v5", "v4", "v3", "v2", "v16"] ∧
    (sortByPublishDesc exTable17).map (fun r => r.videoTitle)
      ≠ exTable17.map (fun r => r.videoTitle) :=
  of_decide_eq_true (by with_unfolding_all rfl)

/-- C4 (amended): `engineer_df_agg` sorts with numpy's default quicksort;
for tables of at most 16 rows — numpy's insertion-sort regime — the sort is
descending by publish time and stable: the indexer is a permutation, rows
are reordered by it, publish times are descending, and ties keep ascending
original positions.  Beyond 16 rows the quicksort can permute records with
equal publish time (the counterexample).  The specification's three-date
example [2024-01-01, 2024-03-01, 2024-02-01] sorts to
[2024-03-01, 2024-02-01, 2024-01-01]. -/
theorem C4_sort_descending_stable_16 (t : List AggRow)
    (hlen : t.length ≤ 16) :
    (nargsortDesc (t.map (fun r => r.videoPublishTime))).Perm
      (List.range t.length) ∧
    (∀ i, i < t.length →
      (sortByPublishDesc t).getD i default
        = t.getD
            ((nargsortDesc (t.map (fun r => r.videoPublishTime))).getD i 0)
            default) ∧
    (∀ i j, i < j → j < t.length →
      Date.le ((sortByPublishDesc t).getD j default).videoPublishTime
              ((sortByPublishDesc t).getD i default).videoPublishTime
        = true) ∧
    (∀ i j, i < j → j < t.length →
      ((sortByPublishDesc t).getD i default).videoPublishTime
        = ((sortByPublishDesc t).getD j default).videoPublishTime →
      (nargsortDesc (t.map (fun r => r.videoPublishTime))).getD i 0
        < (nargsortDesc (t.map (fun r => r.videoPublishTime))).getD j 0) ∧
    (sortByPublishDesc exTable3).map (fun r => r.videoPublishTime)
      = [⟨2024, 3, 1⟩, ⟨2024, 2, 1⟩, ⟨2024, 1, 1⟩] := by
  have hkl : (t.map (fun r => r.videoPublishTime)).length = t.length := by
    simp
  obtain ⟨hperm, hplen, hdesc, hstab⟩ :=
    nargsortDesc_small (t.map (fun r => r.videoPublishTime))
      (by simpa using hlen)
  rw [hkl] at hperm hplen hdesc hstab
  have hpmem : ∀ i, i < t.length →
      (nargsortDesc (t.map (fun r => r.videoPublishTime))).getD i 0
        < t.length := by
    intro i hi
    have h1 : i < (nargsortDesc (t.map (fun r => r.videoPublishTime))).length := by
      omega
    rw [List.getD_eq_getElem _ _ h1]
    exact List.mem_range.mp (hperm.mem_iff.mp (List.getElem_mem h1))
  have hrow : ∀ i, i < t.length →
      (sortByPublishDesc t).getD i default
        = t.getD
            ((nargsortDesc (t.map (fun r => r.videoPublishTime))).getD i 0)
            default := by
    intro i hi
    have h0 : sortByPublishDesc t
        = (nargsortDesc (t.map (fun r => r.videoPublishTime))).map
            (fun q => t.getD q default) := rfl
    rw [h0, getD_map_row _ _ _ (by omega)]
  have hkeyrow : ∀ i, i < t.length →
      ((sortByPublishDesc t).getD i default).videoPublishTime
        = (t.map (fun r => r.videoPublishTime)).getD
            ((nargsortDesc (t.map (fun r => r.videoPublishTime))).getD i 0)
            default := by
    intro i hi
    rw [hrow i hi, getD_map_proj _ _ (hpmem i hi)]
  refine ⟨hperm, hrow, ?_, ?_, ?_⟩
  · intro i j hij hj
    rw [hkeyrow i (by omega), hkeyrow j hj]
    exact hdesc i j hij hj
  · intro i j hij hj heq
    rw [hkeyrow i (by omega), hkeyrow j hj] at heq
    exact hstab i j hij hj heq
  · decide

/-- C4 witness: the theorem applied to the three-date table. -/
theorem C4_sort_descending_stable_16_witness :
    (sortByPublishDesc exTable3).map (fun r => r.videoPublishTime)
      = [⟨2024, 3, 1⟩, ⟨2024, 2, 1⟩, ⟨2024, 1, 1⟩] :=
  (C4_sort_descending_stable_16 exTable3 (by decide)).2.2.2.2

set_option maxRecDepth 80000 in
/-- C5 counterexample: `get_vid_stat_trends` is not idempotent.  On two
same-day rows with 1 and 3 views the first application yields deviations
±1/2; re-applying re-centres on the new median 0 and divides by it,
producing ∓infinity. -/
theorem C5_counterexample :
    get_vid_stat_trends (get_vid_stat_trends exTable2)
      ≠ get_vid_stat_trends exTable2 :=
  of_decide_eq_false (by with_unfolding_all rfl)

set_option maxRecDepth 80000 in
/-- C5 (amended): the pipeline operations are deterministic transformations
of their inputs, but they are not idempotent: there are inputs on which
applying `get_vid_stat_trends` twice differs from applying it once (and the
engineering operations change column types in place, so re-applying them
raises). -/
theorem C5_not_idempotent :
    ∃ t : List AggRow,
      get_vid_stat_trends (get_vid_stat_trends t) ≠ get_vid_stat_trends t :=
  ⟨exTable2b, of_decide_eq_false (by with_unfolding_all rfl)⟩

/-- C6: a zero divisor (zero `Views` for `ENGAGEMENT_RATIO`, zero
`Subscribers Gained` for `VIEWS / SUBS_GAINED`) makes `engineer_df_agg`
produce the defined non-finite sentinel for the derived ratio, and the
pipeline returns normally instead of raising. -/
theorem C6_division_by_zero (r : RawAggRow) (r2 : AggRow)
    (h : engineerAggRow r = some r2) :
    (r.views = 0 → r2.engagementRat.isFinite = false) ∧
    (r.subscribersGained = 0 → r2.viewsPerSubsGained.isFinite = false) ∧
    (engineer_df_agg [r]).isSome = true := by
  have hsome : (engineer_df_agg [r]).isSome = true := by
    simp [engineer_df_agg, seqOpt, h]
  unfold engineerAggRow at h
  cases hp : parseMbDY r.videoPublishTime with
  | none => rw [hp] at h; cases h
  | some pub =>
    cases hd : parseHMS r.averageViewDuration with
    | none => rw [hp, hd] at h; cases h
    | some hms =>
      rw [hp, hd] at h
      cases Option.some.inj h
      refine ⟨?_, ?_, hsome⟩
      · intro hv
        have hv0 : (r.views : ℚ) = 0 := by rw [hv]; norm_num
        simp only [PVal.div, hv0, if_pos rfl]
        split_ifs <;> rfl
      · intro hv
        have hv0 : (r.subscribersGained : ℚ) = 0 := by rw [hv]; norm_num
        simp only [PVal.div, hv0, if_pos rfl]
        split_ifs <;> rfl

set_option maxRecDepth 80000 in
/-- C6 witness: the concrete scenario `Views = 0`, `Comments = 1` from the
specification — the sentinel is `+inf` and the pipeline returns a table. -/
theorem C6_division_by_zero_witness :
    exRawRowV0.views = 0 ∧
    ((engineerAggRow exRawRowV0).getD default).engagementRat.isFinite
      = false ∧
    ((engineerAggRow exRawRowV0).getD default).engagementRat = PVal.inf ∧
    (engineer_df_agg [exRawRowV0]).isSome = true := by
  have h := C6_division_by_zero exRawRowV0
    ((engineerAggRow exRawRowV0).getD default)
    (of_decide_eq_true (by with_unfolding_all rfl))
  exact ⟨by decide, h.1 (by decide),
    of_decide_eq_true (by with_unfolding_all rfl), h.2.2⟩

/-- C7: for a duration string `"H:M:S"` with components in the ranges the
`%H:%M:%S` pattern accepts, the derived `AVG_DURATION_SEC` equals exactly
`3600*H + 60*M + S`. -/
theorem C7_avg_duration_seconds (r : RawAggRow) (h m s : Nat)
    (hh : h ≤ 23) (hm : m ≤ 59) (hs : s ≤ 59)
    (hdur : r.averageViewDuration = fmtHMS h m s)
    (hpub : (parseMbDY r.videoPublishTime).isSome = true) :
    ∃ r2, engineerAggRow r = some r2 ∧
      r2.avgDurationSec = PVal.num ((3600 * h + 60 * m + s : Nat) : ℚ) := by
  rcases Option.isSome_iff_exists.mp hpub with ⟨pub, hp⟩
  unfold engineerAggRow
  rw [hp, hdur, parseHMS_fmt h m s hh hm hs]
  refine ⟨_, rfl, ?_⟩
  have hq : ((s : ℚ) + (m : ℚ) * 60 + (h : ℚ) * 3600)
      = ((3600 * h + 60 * m + s : Nat) : ℚ) := by
    push_cast
    ring
  simp only [hq]

/-- C7 witness: the duration `0:1:30` yields 90 seconds. -/
theorem C7_avg_duration_seconds_witness :
    ∃ r2, engineerAggRow exRawRow = some r2 ∧
      r2.avgDurationSec = PVal.num ((3600 * 0 + 60 * 1 + 30 : Nat) : ℚ) :=
  C7_avg_duration_seconds exRawRow 0 1 30 (by decide) (by decide) (by decide)
    (by decide) (by decide)

/-- C8: `engineer_df_time` normalises `"Sept"` to `"Sep"` before parsing, so
`"1 Sept 2024"` and `"1 Sep 2024"` parse to the identical date; and a date
string that does not match `%d %b %Y` after normalisation fails the whole
call (`errors='raise'`), it is never silently coerced. -/
theorem C8_sept_normalization :
    (parseDMY (normalizeSept ("1 Sept 2024"))
        = parseDMY (normalizeSept ("1 Sep 2024")) ∧
     parseDMY (normalizeSept ("1 Sept 2024")) = some ⟨2024, 9, 1⟩) ∧
    ∀ (t : List RawTimeRow) (r : RawTimeRow), r ∈ t →
      parseDMY (normalizeSept r.date) = none → engineer_df_time t = none := by
  refine ⟨by decide, ?_⟩
  intro t r hmem hnone
  unfold engineer_df_time
  apply seqOpt_eq_none
  have hrow : engineerTimeRow r = none := by
    unfold engineerTimeRow
    rw [hnone]
    rfl
  rw [← hrow]
  exact List.mem_map_of_mem engineerTimeRow hmem

/-- C8 witness: a `%m %d, %Y`-shaped string does not match and the whole
engineering call reports the failure. -/
theorem C8_sept_normalization_witness :
    engineer_df_time [⟨"May 1, 2024", "v", 3⟩] = none :=
  C8_sept_normalization.2 [⟨"May 1, 2024", "v", 3⟩] ⟨"May 1, 2024", "v", 3⟩
    (by decide) (by decide)

/-- C9: for every non-empty engineered aggregate table the trailing
12-month window retains at least one record (the record attaining the
maximum publish time passes the filter), so every baseline median is
computed over a non-empty column. -/
theorem C9_window12_nonempty (t : List AggRow) (h : t ≠ []) :
    window12 t ≠ [] ∧
    ∀ c : NumCol, (window12 t).map (fun r => r.getNum c) ≠ [] := by
  have hmx : ∃ mx, maxPubDate t = some mx := by
    cases t with
    | nil => exact absurd rfl h
    | cons y l => exact ⟨_, rfl⟩
  rcases hmx with ⟨mx, hmx⟩
  rcases maxPubDate_mem t mx hmx with ⟨r, hr, hre⟩
  have hw : window12 t ≠ [] := by
    unfold window12
    rw [hmx]
    refine List.ne_nil_of_mem (List.mem_filter.mpr ⟨hr, ?_⟩)
    rw [hre]
    exact Date.le_subMonths12 mx
  refine ⟨hw, fun c => ?_⟩
  simpa using hw

/-- C9 witness: the theorem at a concrete two-row table. -/
theorem C9_window12_nonempty_witness :
    window12 exTable2 ≠ [] ∧
    ∀ c : NumCol, (window12 exTable2).map (fun r => r.getNum c) ≠ [] :=
  C9_window12_nonempty exTable2 (by decide)

/-- C10: `get_vid_stat_trends` works on a copy: in the object-store model
the call allocates a fresh reference for `df_agg.copy()` and writes only
through it, so the caller's dataframe is unchanged (and so is every other
allocated reference), while the result is the deviation table. -/
theorem C10_operates_on_copy (heap : Nat → List AggRow) (next ref : Nat)
    (h : ref < next) :
    (gvstProg heap next ref).1 ref = heap ref ∧
    (∀ i, i ≠ next → (gvstProg heap next ref).1 i = heap i) ∧
    (gvstProg heap next ref).1 (gvstProg heap next ref).2.2
      = get_vid_stat_trends (heap ref) := by
  have hne : ref ≠ next := by omega
  unfold gvstProg
  refine ⟨by simp [hne], fun i hi => by simp [hi], by simp⟩

/-- C10 witness: the theorem at a one-reference heap. -/
theorem C10_operates_on_copy_witness :
    (gvstProg (fun _ => exTable2) 1 0).1 0 = exTable2 := by
  simpa using (C10_operates_on_copy (fun _ => exTable2) 1 0 (by decide)).1

end KenDash
